import Mathlib

/-!
Verification development for the Recognaize chat client.

The client code is embedded shallowly: strings are lists of characters,
the JSX render functions become pure functions from message text to a
tree of typed display elements, and the React state updates become pure
state-transition functions.  Regular-expression matches from the source
are translated into explicit decompositions of character lists.
-/
namespace Recognaize

/-- Strings are modelled as lists of characters. -/
abbrev Str := List Char

/-- Whitespace characters recognised by the JavaScript regex class \s
(restricted to the ASCII range plus no-break space). -/
def isWsChar (c : Char) : Bool :=
  c = ' ' || c = '\t' || c = '\n' || c = '\r' || c = '\x0b' || c = '\x0c' || c = ' '

/-- ASCII uppercase letter, the JavaScript character class [A-Z]. -/
def isUpperCh (c : Char) : Bool := 'A' ≤ c && c ≤ 'Z'

/-- ASCII digit, the JavaScript character class \d. -/
def isDigitCh (c : Char) : Bool := '0' ≤ c && c ≤ '9'

/-- ASCII alphanumeric character, the class [a-zA-Z0-9]. -/
def isAlnumCh (c : Char) : Bool :=
  isUpperCh c || isDigitCh c || ('a' ≤ c && c ≤ 'z')

/-- ASCII lower-casing, as String.prototype.toLowerCase acts on the
marker phrases involved (which are ASCII). -/
def asciiLower (c : Char) : Char :=
  if isUpperCh c then Char.ofNat (c.toNat + 32) else c

/-- content.split('\n'): split into lines at newline characters.
The empty string yields one empty line, as in JavaScript. -/
def splitLines : Str → List Str
  | [] => [[]]
  | c :: cs =>
    match splitLines cs with
    | [] => if c = '\n' then [[], []] else [[c]]
    | l :: ls => if c = '\n' then [] :: l :: ls else (c :: l) :: ls

/-- String.prototype.trim: drop leading and trailing whitespace. -/
def trim (l : Str) : Str :=
  ((l.dropWhile isWsChar).reverse.dropWhile isWsChar).reverse

/-- needle.includes test: is the first list a contiguous sublist of the second? -/
def containsSeq (needle : Str) : Str → Bool
  | [] => needle.isEmpty
  | c :: cs => needle.isPrefixOf (c :: cs) || containsSeq needle cs

namespace Fmt

/-!
Embedding of renderMessageContent from the generic-path variant of the
client (src/unnamed/part_001, lines 163-254).  Each regular expression is
translated for trimmed input lines, which is the only way the source
applies it.
-/

/-- Match of /^#{1,4}\s+(.+)/ on a trimmed line: one to four leading
hash characters, then whitespace, then the captured remainder. -/
def hashCapture (l : Str) : Option Str :=
  if 1 ≤ (l.takeWhile (· = '#')).length ∧ (l.takeWhile (· = '#')).length ≤ 4 then
    match l.drop (l.takeWhile (· = '#')).length with
    | [] => none
    | c :: rest =>
      if isWsChar c then
        if rest.dropWhile isWsChar = [] then none
        else some (rest.dropWhile isWsChar)
      else none
  else none

/-- Helper for the anchored close of the bold-heading pattern: succeeds
exactly when the input ends with a double asterisk preceded by a
nonempty body, returning that body. -/
def stripCloseStars (m1 : Str) : Option Str :=
  match m1.reverse with
  | r0 :: r1 :: rc =>
    if r0 = '*' ∧ r1 = '*' ∧ rc ≠ [] then some rc.reverse else none
  | _ => none

/-- Match of /^\*\*(.+?)\*\*:?$/: the whole line is a double-asterisk
wrapped nonempty body, optionally followed by a colon.  Because the
pattern is anchored at both ends, the lazy capture is the body with the
closing delimiter (and optional colon) removed. -/
def boldHeadingCapture : Str → Option Str
  | c0 :: c1 :: m =>
    if c0 = '*' ∧ c1 = '*' then
      stripCloseStars (if m.getLast? = some ':' then m.dropLast else m)
    else none
  | _ => none

/-- Character class [A-Z\s&] from the caps-heading regex. -/
def capsBodyCh (c : Char) : Bool := isUpperCh c || isWsChar c || c = '&'

/-- Match of /^([A-Z][A-Z\s&]{3,}):?$/: an uppercase letter followed by
at least three characters from [A-Z\s&], optionally ending in a colon;
the capture excludes the colon. -/
def capsCapture (l : Str) : Option Str :=
  match (if l.getLast? = some ':' then l.dropLast else l) with
  | [] => none
  | c0 :: body =>
    if isUpperCh c0 && decide (3 ≤ body.length) && body.all capsBodyCh then
      some (c0 :: body)
    else none

/-- Heading detection and title extraction: the first matching of the
three heading patterns supplies the capture, which then has all
asterisks removed and is trimmed (source line 197). -/
def headingOf (l : Str) : Option Str :=
  match hashCapture l with
  | some c => some (trim (c.filter (· ≠ '*')))
  | none =>
    match boldHeadingCapture l with
    | some c => some (trim (c.filter (· ≠ '*')))
    | none =>
      match capsCapture l with
      | some c => some (trim (c.filter (· ≠ '*')))
      | none => none

/-- Match of /^[•\-\*]\s+(.+)/ on a trimmed line: a bullet glyph,
whitespace, then the captured remainder (glyph and whitespace stripped). -/
def bulletCapture : Str → Option Str
  | [] => none
  | g :: rest =>
    if g = '•' || g = '-' || g = '*' then
      match rest with
      | [] => none
      | d :: rest2 =>
        if isWsChar d then
          if rest2.dropWhile isWsChar = [] then none
          else some (rest2.dropWhile isWsChar)
        else none
    else none

/-- Test of /^(\d+[\.\)]\s+)(.+)/ on a trimmed line: digits, then a dot
or closing parenthesis, then whitespace, then a nonempty remainder. -/
def numberedTest (l : Str) : Bool :=
  !(l.takeWhile isDigitCh).isEmpty &&
  (match l.dropWhile isDigitCh with
   | p :: w :: rest =>
     (p = '.' || p = ')') && isWsChar w && !(rest.dropWhile isWsChar).isEmpty
   | _ => false)

/-- One inline part of a rendered non-heading line: a plain span or an
emphasized (msg-bold) span. -/
inductive InlinePart where
  | plainP (s : Str)
  | boldP (s : Str)
  deriving DecidableEq, Repr

/-- Scanner for the lazy close of /\*\*(.+?)\*\*/: grows the content one
character at a time and closes at the earliest double asterisk reached
with nonempty content.  Returns the content and the text after the
closing delimiter. -/
def scanClose : Str → Str → Option (Str × Str)
  | _, [] => none
  | acc, c :: rest =>
    if c = '*' ∧ acc ≠ [] ∧ rest.head? = some '*' then
      some (acc.reverse, rest.tail)
    else scanClose (c :: acc) rest

/-- A match of /\*\*(.+?)\*\*/ anchored at the start of the input:
requires a literal double asterisk, then the lazily captured nonempty
content, then the closing double asterisk. -/
def boldOpenAt : Str → Option (Str × Str)
  | c0 :: c1 :: r => if c0 = '*' ∧ c1 = '*' then scanClose [] r else none
  | _ => none

/-- Leftmost match of /\*\*(.+?)\*\*/ in the input: returns the text
before the match, the captured content, and the text after the match. -/
def findBold : Str → Option (Str × Str × Str)
  | [] => none
  | c :: rest =>
    match boldOpenAt (c :: rest) with
    | some (content, after) => some ([], content, after)
    | none =>
      match findBold rest with
      | some (before, content, after) => some (c :: before, content, after)
      | none => none

/-- The fallback of renderInline when no bold match remains: all
asterisks are stripped and the residue, if any, becomes a plain span. -/
def inlineFallback (s : Str) : List InlinePart :=
  if s.filter (· ≠ '*') = [] then [] else [.plainP (s.filter (· ≠ '*'))]

/-- The while-loop of renderInline (source lines 205-223), with fuel
bounded by the input length (each match consumes at least five
characters, so the fuel never runs out). -/
def inlinePartsGo : Nat → Str → List InlinePart
  | 0, s => inlineFallback s
  | fuel + 1, s =>
    match findBold s with
    | some (b, c, a) =>
      (if b = [] then [] else [.plainP b]) ++ .boldP c :: inlinePartsGo fuel a
    | none => inlineFallback s

/-- The parts produced by the renderInline loop. -/
def inlineParts (s : Str) : List InlinePart := inlinePartsGo s.length s

/-- renderInline (source lines 205-225): the loop parts, or the
asterisk-stripped text as a single node when the loop produced nothing. -/
def inlineRender (s : Str) : List InlinePart :=
  match inlineParts s with
  | [] => [.plainP (s.filter (· ≠ '*'))]
  | ps => ps

/-- The visible text of a list of inline parts. -/
def renderedText : List InlinePart → Str
  | [] => []
  | .plainP s :: ps => s ++ renderedText ps
  | .boldP s :: ps => s ++ renderedText ps

/-- One line inside a section block (source lines 232-247): a bullet
(glyph stripped), a numbered line (prefix kept), or a plain line. -/
inductive SecLine where
  | bulletL (parts : List InlinePart)
  | numberedL (parts : List InlinePart)
  | plainL (parts : List InlinePart)
  deriving DecidableEq, Repr

/-- One top-level element of the rendered assistant message: a heading
line, a stand-alone plain line, or a section block of grouped lines. -/
inductive Element where
  | headingE (text : Str)
  | plainE (parts : List InlinePart)
  | blockE (lines : List SecLine)
  deriving DecidableEq, Repr

/-- The mutable state of the forEach loop of renderMessageContent:
the emitted elements and the pending section lines. -/
structure GenState where
  els : List Element
  cur : List SecLine
  deriving DecidableEq, Repr

/-- flushSection (source lines 170-181): a nonempty pending run of
section lines is emitted as one section block. -/
def flushEls (st : GenState) : List Element :=
  match st.cur with
  | [] => st.els
  | c :: cs => st.els ++ [.blockE (c :: cs)]

/-- The loop body of renderMessageContent (source lines 183-249) acting
on one already-trimmed line. -/
def stepLine (st : GenState) (line : Str) : GenState :=
  if line = [] then ⟨flushEls st, []⟩
  else
    match headingOf line with
    | some h => ⟨flushEls st ++ [.headingE h], []⟩
    | none =>
      match bulletCapture line with
      | some c => ⟨st.els, st.cur ++ [.bulletL (inlineRender c)]⟩
      | none =>
        if numberedTest line then ⟨st.els, st.cur ++ [.numberedL (inlineRender line)]⟩
        else
          match st.cur with
          | [] => ⟨st.els ++ [.plainE (inlineRender line)], []⟩
          | c :: cs => ⟨st.els, (c :: cs) ++ [.plainL (inlineRender line)]⟩

/-- renderMessageContent for an assistant message (source lines 163-253):
trim every raw line, run the loop, and flush the trailing section. -/
def renderMessageContent (content : Str) : List Element :=
  flushEls (((splitLines content).map trim).foldl stepLine ⟨[], []⟩)

/-- The typed rendering of a single classified line. -/
inductive Item where
  | headingI (text : Str)
  | bulletI (parts : List InlinePart)
  | numberedI (parts : List InlinePart)
  | plainI (parts : List InlinePart)
  deriving DecidableEq, Repr

/-- How one nonempty trimmed line is displayed, mirroring the
classification order of the loop body: headings first, then bullets,
then numbered lines, then plain text. -/
def lineItem (line : Str) : Item :=
  match headingOf line with
  | some h => .headingI h
  | none =>
    match bulletCapture line with
    | some c => .bulletI (inlineRender c)
    | none =>
      if numberedTest line then .numberedI (inlineRender line)
      else .plainI (inlineRender line)

/-- The item rendered by a line stored inside a section block. -/
def secToItem : SecLine → Item
  | .bulletL p => .bulletI p
  | .numberedL p => .numberedI p
  | .plainL p => .plainI p

/-- Flatten the element tree into the ordered list of displayed items. -/
def flattenEls : List Element → List Item
  | [] => []
  | .headingE t :: es => .headingI t :: flattenEls es
  | .plainE p :: es => .plainI p :: flattenEls es
  | .blockE ls :: es => ls.map secToItem ++ flattenEls es

/-- Items of a loop state: emitted elements then the pending section. -/
def flattenSt (st : GenState) : List Item :=
  flattenEls st.els ++ st.cur.map secToItem

/-- The kind of a displayed item. -/
inductive LineKind where
  | headingK
  | bulletK
  | numberedK
  | plainK
  deriving DecidableEq, Repr

/-- The kind of a displayed item. -/
def itemKind : Item → LineKind
  | .headingI _ => .headingK
  | .bulletI _ => .bulletK
  | .numberedI _ => .numberedK
  | .plainI _ => .plainK

/-- Declarative reading of /^#{1,4}\s+(.+)/: one to four hash characters
followed by a whitespace character. -/
def hashDecl (l : Str) : Prop :=
  ∃ k w rest, 1 ≤ k ∧ k ≤ 4 ∧ isWsChar w = true ∧
    l = List.replicate k '#' ++ w :: rest

/-- Declarative reading of /^\*\*(.+?)\*\*:?$/: the line is a nonempty
body fully wrapped in double asterisks, optionally ending in a colon. -/
def boldDecl (l : Str) : Prop :=
  ∃ c t, c ≠ [] ∧ (t = [] ∨ t = [':']) ∧ l = '*' :: '*' :: (c ++ '*' :: '*' :: t)

/-- Declarative reading of /^([A-Z][A-Z\s&]{3,}):?$/: an uppercase
letter, then at least three characters from [A-Z\s&], then an optional
colon ending the line. -/
def capsDecl (l : Str) : Prop :=
  ∃ c0 body t, isUpperCh c0 = true ∧ 3 ≤ body.length ∧
    (∀ c ∈ body, capsBodyCh c = true) ∧ (t = [] ∨ t = [':']) ∧ l = c0 :: body ++ t

/-- Declarative reading of /^[•\-\*]\s+(.+)/: a bullet glyph followed by
a whitespace character. -/
def bulletDecl (l : Str) : Prop :=
  ∃ g w rest, (g = '•' ∨ g = '-' ∨ g = '*') ∧ isWsChar w = true ∧ l = g :: w :: rest

/-- Declarative reading of /^(\d+[\.\)]\s+)(.+)/: digits, then a dot or
closing parenthesis, then a whitespace character. -/
def numberedDecl (l : Str) : Prop :=
  ∃ ds p w rest, ds ≠ [] ∧ (∀ c ∈ ds, isDigitCh c = true) ∧ (p = '.' ∨ p = ')') ∧
    isWsChar w = true ∧ l = ds ++ p :: w :: rest

end Fmt

namespace Slide

/-!
Embedding of the template ("slide") variant of renderMessageContent from
src/frontend/src/App.jsx, lines 158-290: marker detection, line
normalization, and the construction of the four-topic section cards.
-/

/-- normalizeAssistantLine, step replacing the global lazy pattern of
double-asterisk pairs by their group: scan for the closing double
asterisk, allowing empty content. -/
def scanClose2 : Str → Str → Option (Str × Str)
  | _, [] => none
  | acc, c :: rest =>
    if c = '*' ∧ rest.head? = some '*' then some (acc.reverse, rest.tail)
    else scanClose2 (c :: acc) rest

/-- normalizeAssistantLine, step replacing the global lazy pattern of
single-asterisk pairs by their group: scan for a closing asterisk. -/
def scanClose1 : Str → Str → Option (Str × Str)
  | _, [] => none
  | acc, c :: rest =>
    if c = '*' then some (acc.reverse, rest)
    else scanClose1 (c :: acc) rest

/-- Global replacement of each lazy double-asterisk pair by its content
(normalizeAssistantLine line 165): scan left to right; fuel is bounded
by the input length. -/
def replaceDoubleGo : Nat → Str → Str
  | 0, s => s
  | fuel + 1, s =>
    match s with
    | [] => []
    | c0 :: rest0 =>
      if c0 = '*' ∧ rest0.head? = some '*' then
        match scanClose2 [] rest0.tail with
        | some (content, after) => content ++ replaceDoubleGo fuel after
        | none => c0 :: replaceDoubleGo fuel rest0
      else c0 :: replaceDoubleGo fuel rest0

def replaceDouble (s : Str) : Str := replaceDoubleGo s.length s

/-- Global replacement of each lazy single-asterisk pair by its content
(normalizeAssistantLine line 166). -/
def replaceSingleGo : Nat → Str → Str
  | 0, s => s
  | fuel + 1, s =>
    match s with
    | [] => []
    | c0 :: rest0 =>
      if c0 = '*' then
        match scanClose1 [] rest0 with
        | some (content, after) => content ++ replaceSingleGo fuel after
        | none => c0 :: replaceSingleGo fuel rest0
      else c0 :: replaceSingleGo fuel rest0

def replaceSingle (s : Str) : Str := replaceSingleGo s.length s

/-- Strip one leading run of asterisks and the following whitespace run
(normalizeAssistantLine line 167). -/
def stripLeadStars (l : Str) : Str :=
  if l.head? = some '*' then (l.dropWhile (· = '*')).dropWhile isWsChar else l

/-- Strip the trailing run of asterisks (normalizeAssistantLine
line 168). -/
def stripTrailStars (l : Str) : Str :=
  (l.reverse.dropWhile (· = '*')).reverse

/-- normalizeAssistantLine (source lines 163-170). -/
def normalizeAssistantLine (l : Str) : Str :=
  stripTrailStars (stripLeadStars (replaceSingle (replaceDouble (trim l))))

/-- The preprocessed lines of an assistant message (source lines
172-176): split, trim, drop empties, normalize. -/
def rawLines (content : Str) : List Str :=
  (((splitLines content).map trim).filter (fun l => !l.isEmpty)).map normalizeAssistantLine

/-- One of the four fixed section definitions (source lines 189-194). -/
structure SDef where
  key : String
  matchS : Str
  icon : String
  deriving DecidableEq

/-- sectionDefs from the source, in order. -/
def sectionDefs : List SDef :=
  [⟨"understanding", "understanding your results".toList, "📊"⟩,
   ⟨"action", "your personalized action plan".toList, "🎯"⟩,
   ⟨"monitoring", "monitoring your progress".toList, "📅"⟩,
   ⟨"doctor", "when to see your doctor".toList, "⚕️"⟩]

/-- Does this line, lowercased, contain one of the four fixed marker
phrases?  This is the per-line test of hasSlideSections (source lines
178-186), written with the same four explicit disjuncts. -/
def lineMentionsSlide (l : Str) : Bool :=
  containsSeq ("understanding your results".toList) (l.map asciiLower) ||
  containsSeq ("your personalized action plan".toList) (l.map asciiLower) ||
  containsSeq ("monitoring your progress".toList) (l.map asciiLower) ||
  containsSeq ("when to see your doctor".toList) (l.map asciiLower)

/-- hasSlideSections: some preprocessed line mentions a marker phrase. -/
def hasSlideSections (content : Str) : Bool :=
  (rawLines content).any lineMentionsSlide

/-- The first section definition whose marker the lowercased line
contains (source line 201). -/
def findMarker (l : Str) : Option SDef :=
  sectionDefs.find? (fun d => containsSeq d.matchS (l.map asciiLower))

/-- One section card of the slide layout. -/
structure SlideSec where
  key : String
  title : Str
  icon : String
  paragraphs : List Str
  bullets : List Str
  deriving DecidableEq

/-- The cleaned title of a marker line (source line 204): leading
non-alphanumeric characters dropped, then trimmed. -/
def cleanTitle (l : Str) : Str :=
  trim (l.dropWhile (fun c => !isAlnumCh c))

/-- Strip the bullet glyph and the following whitespace from a bullet
line of a section (source line 219). -/
def stripBulletPre (l : Str) : Str :=
  match l with
  | c :: rest => if c = '-' ∨ c = '•' then rest.dropWhile isWsChar else l
  | [] => []

/-- Append to the current (last-opened) section. -/
def pushToLast (f : SlideSec → SlideSec) : List SlideSec → List SlideSec
  | [] => []
  | [s] => [f s]
  | s :: s2 :: rest => s :: pushToLast f (s2 :: rest)

/-- The body of the section-building forEach (source lines 199-224): a
marker line opens a new section; other lines are discarded before the
first marker, and otherwise become bullets (glyph stripped) or
paragraphs of the current section. -/
def stepSlide (secs : List SlideSec) (l : Str) : List SlideSec :=
  match findMarker l with
  | some d => secs ++ [⟨d.key, cleanTitle l, d.icon, [], []⟩]
  | none =>
    match secs with
    | [] => []
    | _ :: _ =>
      if l.head? = some '•' ∨ l.head? = some '-' then
        pushToLast (fun sec => { sec with bullets := sec.bullets ++ [stripBulletPre l] }) secs
      else
        pushToLast (fun sec => { sec with paragraphs := sec.paragraphs ++ [l] }) secs

/-- The section cards built from an assistant message on the template
path. -/
def slideSections (content : Str) : List SlideSec :=
  (rawLines content).foldl stepSlide []

end Slide

namespace Ctrl

/-!
Embedding of the session-controller state of src/unnamed/part_001: the
React state hooks become a record, and the async handlers sendMessage
(lines 115-148), handleUpload (lines 86-113) and handleNewChat (lines
154-161) become state-transition functions.  The outcome of the awaited
network call is passed in explicitly, and each transition function
returns the state after the whole handler (including its finally block)
has run.
-/

/-- Message roles. -/
inductive Role where
  | user
  | assistant
  deriving DecidableEq, Repr

/-- One transcript entry: role, content and display-formatted time. -/
structure Msg where
  role : Role
  content : Str
  time : Str
  deriving DecidableEq, Repr

/-- The two screens of the client. -/
inductive Screen where
  | upload
  | chat
  deriving DecidableEq, Repr

/-- The React state of the App component (lines 22-30). -/
structure AppState where
  screen : Screen
  message : Str
  loading : Bool
  uploading : Bool
  fileName : Option Str
  fileContext : Str
  messages : List Msg
  error : Option Str
  deriving DecidableEq, Repr

/-- Classification of a failed axios call, as distinguished by
getErrorMessage (lines 76-84). -/
inductive ErrKind where
  | connAborted
  | noResponse
  | other
  deriving DecidableEq, Repr

/-- getErrorMessage (lines 76-84). -/
def getErrorMessage : ErrKind → Str
  | .connAborted =>
    "Server took too long to respond. It may be starting up — please try again.".toList
  | .noResponse =>
    "Cannot reach the server. Please check your connection and try again.".toList
  | .other => "Something went wrong. Please try again.".toList

/-- One role-and-content pair of the conversation history sent to the
collaborator. -/
structure HistEntry where
  role : Role
  content : Str
  deriving DecidableEq, Repr

/-- The JSON body of the chat request (lines 124-128). -/
structure ChatRequest where
  message : Str
  conversation_history : List HistEntry
  file_context : Option Str
  deriving DecidableEq, Repr

/-- Outcome of the awaited chat call. -/
inductive ChatOutcome where
  | success (reply : Str)
  | failure (k : ErrKind)
  deriving DecidableEq, Repr

/-- sendMessage (lines 115-148): the guard, the optimistic append of the
user message, the request payload built from the pre-append state, and
the success/failure/finally updates.  Returns the final state and the
request that was issued, if any. -/
def sendMessage (s : AppState) (text : Str) (userTime replyTime : Str)
    (out : ChatOutcome) : AppState × Option ChatRequest :=
  if trim text = [] ∨ s.loading = true then (s, none)
  else
    let payload : ChatRequest :=
      { message := text
        conversation_history := s.messages.map (fun m => HistEntry.mk m.role m.content)
        file_context := if s.fileContext = [] then none else some s.fileContext }
    let s1 := { s with
      messages := s.messages ++ [Msg.mk Role.user text userTime]
      message := []
      loading := true }
    match out with
    | .success reply =>
      ({ s1 with
          messages := s1.messages ++ [Msg.mk Role.assistant reply replyTime]
          loading := false }, some payload)
    | .failure k =>
      ({ s1 with error := some (getErrorMessage k), loading := false }, some payload)

/-- Outcome of the awaited upload call: either a response (whose error
field is nonempty exactly when the collaborator signalled an
application-level error, matching JavaScript truthiness of a string
field) or a transport failure. -/
inductive UploadOutcome where
  | response (error : Str) (filename : Str) (content : Option Str)
  | transport (k : ErrKind)
  deriving DecidableEq, Repr

/-- handleUpload (lines 86-113): clears the error, then on an
application-level error surfaces it and leaves all other state alone;
on success stores filename and extracted content and switches to the
chat screen; on a transport failure surfaces the mapped message.  The
finally block clears the uploading flag in every case. -/
def handleUpload (s : AppState) (out : UploadOutcome) : AppState :=
  match out with
  | .response e fn content =>
    if e ≠ [] then { s with error := some e, uploading := false }
    else { s with
      error := none
      fileName := some fn
      fileContext := content.getD []
      screen := Screen.chat
      uploading := false }
  | .transport k => { s with error := some (getErrorMessage k), uploading := false }

/-- handleNewChat (lines 154-161). -/
def handleNewChat (s : AppState) : AppState :=
  { s with
    messages := []
    message := []
    fileName := none
    fileContext := []
    error := none
    screen := Screen.upload }

/-- The error message surfaced by a failed upload, if the outcome is a
failure. -/
def uploadFailureMsg : UploadOutcome → Option Str
  | .response e _ _ => if e = [] then none else some e
  | .transport k => some (getErrorMessage k)

end Ctrl

/-- A state with a loaded report and one prior message, used to witness
the controller theorems at a concrete input. -/
def sampleState : Ctrl.AppState :=
  { screen := Ctrl.Screen.chat
    message := []
    loading := false
    uploading := false
    fileName := some ("report.pdf".toList)
    fileContext := "score 42".toList
    messages := [Ctrl.Msg.mk Ctrl.Role.user ("hi".toList) ("10:00".toList)]
    error := none }

/-- An assistant message carrying all four marker phrases on three
lines: the first line contains two markers at once. -/
def c1Input : Str :=
  ("Understanding Your Results and also Your Personalized Action Plan\n" ++
   "Monitoring Your Progress\nWhen to See Your Doctor").toList

end Recognaize

namespace Recognaize

namespace Fmt

theorem scanClose_sound {acc r cnt a} (h : scanClose acc r = some (cnt, a)) :
    ∃ mid, r = mid ++ '*' :: '*' :: a ∧ cnt = acc.reverse ++ mid ∧ cnt ≠ [] := by
  induction r generalizing acc with
  | nil => simp [scanClose] at h
  | cons c rest ih =>
    rw [scanClose] at h
    split at h
    · next hc =>
      obtain ⟨hc1, hc2, hc3⟩ := hc
      simp only [Option.some.injEq, Prod.mk.injEq] at h
      obtain ⟨hcnt, ha⟩ := h
      cases rest with
      | nil => simp at hc3
      | cons r0 rest' =>
        simp at hc3
        refine ⟨[], ?_, ?_, ?_⟩
        · simp [hc1, hc3, ← ha]
        · simp [← hcnt]
        · simp [← hcnt, hc2]
    · next hc =>
      obtain ⟨mid, hr, hcnt, hne⟩ := ih h
      exact ⟨c :: mid, by simp [hr], by simp [hcnt], hne⟩

theorem boldOpenAt_sound {s cnt a} (h : boldOpenAt s = some (cnt, a)) :
    s = '*' :: '*' :: (cnt ++ '*' :: '*' :: a) ∧ cnt ≠ [] := by
  cases s with
  | nil => simp [boldOpenAt] at h
  | cons c0 s1 =>
    cases s1 with
    | nil => simp [boldOpenAt] at h
    | cons c1 r =>
      rw [boldOpenAt] at h
      split at h
      · next hc =>
        obtain ⟨hc0, hc1⟩ := hc
        subst hc0 hc1
        obtain ⟨mid, hr, hcnt, hne⟩ := scanClose_sound h
        simp at hcnt
        subst hcnt
        exact ⟨by simp [hr], hne⟩
      · exact absurd h (by simp)

theorem findBold_sound {s b c a} (h : findBold s = some (b, c, a)) :
    s = b ++ '*' :: '*' :: (c ++ '*' :: '*' :: a) ∧ c ≠ [] := by
  induction s generalizing b c a with
  | nil => simp [findBold] at h
  | cons x rest ih =>
    rw [findBold] at h
    split at h
    · next cnt aft hopen =>
      simp only [Option.some.injEq, Prod.mk.injEq] at h
      obtain ⟨hb, hc, ha⟩ := h
      subst hb hc ha
      obtain ⟨hs, hne⟩ := boldOpenAt_sound hopen
      refine ⟨?_, hne⟩
      simpa using hs
    · split at h
      · next b' c' a' hfind =>
        simp only [Option.some.injEq, Prod.mk.injEq] at h
        obtain ⟨hb, hc, ha⟩ := h
        subst hb hc ha
        obtain ⟨hs, hne⟩ := ih hfind
        exact ⟨by simp [hs], hne⟩
      · exact absurd h (by simp)

theorem findBold_after_lt {s b c a} (h : findBold s = some (b, c, a)) :
    a.length < s.length := by
  obtain ⟨hs, hne⟩ := findBold_sound h
  subst hs
  simp
  omega

theorem inlinePartsGo_fuel (fuel : Nat) :
    ∀ s : Str, s.length ≤ fuel → inlinePartsGo fuel s = inlineParts s := by
  induction fuel using Nat.strong_induction_on with
  | _ fuel ih =>
    intro s hs
    unfold inlineParts
    match fuel, hs with
    | 0, hs =>
      have : s = [] := by cases s <;> simp_all
      subst this
      rfl
    | n + 1, hs =>
      match hlen : s.length, hs with
      | 0, _ =>
        have : s = [] := by cases s <;> simp_all
        subst this
        simp [inlinePartsGo, findBold]
      | m + 1, hs =>
        rw [inlinePartsGo, inlinePartsGo]
        cases hf : findBold s with
        | none => rfl
        | some triple =>
          obtain ⟨b, c, a⟩ := triple
          have hlt := findBold_after_lt hf
          rw [hlen] at hlt
          have h1 : inlinePartsGo n a = inlineParts a :=
            ih n (by omega) a (by omega)
          have h2 : inlinePartsGo m a = inlineParts a :=
            ih m (by omega) a (by omega)
          simp [h1, h2]

/-- Unfolding of the renderInline loop at a leftmost bold match. -/
theorem inlineParts_eq_of_findBold {s b c a} (h : findBold s = some (b, c, a)) :
    inlineParts s = (if b = [] then [] else [.plainP b]) ++ .boldP c :: inlineParts a := by
  have hlt := findBold_after_lt h
  obtain ⟨m, hlen⟩ : ∃ m, s.length = m + 1 := ⟨s.length - 1, by omega⟩
  have hstep : inlineParts s = inlinePartsGo (m + 1) s := by rw [inlineParts, hlen]
  rw [hstep, inlinePartsGo, h]
  show (if b = [] then [] else [InlinePart.plainP b]) ++ .boldP c :: inlinePartsGo m a = _
  rw [inlinePartsGo_fuel m a (by omega)]

/-- Unfolding of the renderInline loop when no bold match exists. -/
theorem inlineParts_eq_of_no_bold {s} (h : findBold s = none) :
    inlineParts s = inlineFallback s := by
  unfold inlineParts
  cases hlen : s.length with
  | zero => rw [inlinePartsGo]
  | succ m => rw [inlinePartsGo, h]

theorem flattenEls_append (a b : List Element) :
    flattenEls (a ++ b) = flattenEls a ++ flattenEls b := by
  induction a with
  | nil => rfl
  | cons e es ih => cases e <;> simp [flattenEls, ih]

theorem flatten_flush (st : GenState) :
    flattenEls (flushEls st) = flattenSt st := by
  unfold flushEls flattenSt
  cases h : st.cur with
  | nil => simp
  | cons c cs => simp [flattenEls_append, flattenEls]

theorem flattenSt_step (st : GenState) (l : Str) :
    flattenSt (stepLine st l) =
      flattenSt st ++ (if l = [] then [] else [lineItem l]) := by
  unfold stepLine lineItem
  split
  · next hl => simp [flattenSt, flatten_flush, hl]
  · next hl =>
    cases hh : headingOf l with
    | some h =>
      simp only
      rw [show flattenSt ⟨flushEls st ++ [Element.headingE h], []⟩ =
            flattenEls (flushEls st ++ [Element.headingE h]) by simp [flattenSt]]
      simp [flattenEls_append, flattenEls, flatten_flush, hl]
    | none =>
      cases hb : bulletCapture l with
      | some c => simp [flattenSt, hl, secToItem]
      | none =>
        by_cases hn : numberedTest l
        · simp [flattenSt, hl, hn, secToItem]
        · cases hc : st.cur with
          | nil => simp [flattenSt, hl, hn, hc, flattenEls_append, flattenEls]
          | cons c cs => simp [flattenSt, hl, hn, hc, secToItem]

theorem flattenSt_foldl (lines : List Str) (st : GenState) :
    flattenSt (lines.foldl stepLine st) =
      flattenSt st ++ (lines.filter (fun l => !l.isEmpty)).map lineItem := by
  induction lines generalizing st with
  | nil => simp
  | cons l ls ih =>
    rw [List.foldl_cons, ih, flattenSt_step]
    cases hl : l with
    | nil => simp
    | cons c cs => simp

end Fmt

theorem head?_dropWhile_not (p : Char → Bool) (l : Str) :
    ∀ c, (l.dropWhile p).head? = some c → p c = false := by
  induction l with
  | nil => simp
  | cons x xs ih =>
    intro c hc
    rw [List.dropWhile_cons] at hc
    split at hc
    · exact ih c hc
    · next hx =>
      simp only [List.head?_cons, Option.some.injEq] at hc
      subst hc
      simpa using hx

theorem trim_getLast_not_ws {l : Str} {c : Char} (h : (trim l).getLast? = some c) :
    isWsChar c = false := by
  unfold trim at h
  rw [List.getLast?_reverse] at h
  exact head?_dropWhile_not isWsChar _ c h

theorem trimmed_getLast {l : Str} (ht : trim l = l) (hne : l ≠ []) :
    ∃ c, l.getLast? = some c ∧ isWsChar c = false := by
  cases hc : l.getLast? with
  | none => exact absurd (List.getLast?_eq_none_iff.mp hc) hne
  | some c => exact ⟨c, rfl, trim_getLast_not_ws (by rw [ht, hc])⟩

theorem dropWhile_ws_ne_nil_of_trimmed {A : Str} {w : Char} {rest : Str}
    (ht : trim (A ++ w :: rest) = A ++ w :: rest) (hw : isWsChar w = true) :
    rest.dropWhile isWsChar ≠ [] := by
  intro hnil
  have hall : ∀ x ∈ rest, isWsChar x = true := by
    intro x hx
    simpa using List.dropWhile_eq_nil_iff.mp hnil x hx
  obtain ⟨c, hc, hcw⟩ := trimmed_getLast ht (by simp)
  rw [List.getLast?_append_cons] at hc
  have hcm : c ∈ w :: rest := List.mem_of_getLast?_eq_some hc
  cases hcm with
  | head => rw [hw] at hcw; exact absurd hcw (by simp)
  | tail _ hm => rw [hall c hm] at hcw; exact absurd hcw (by simp)

theorem takeWhile_append_cons_of_all {p : Char → Bool} {A : Str} {y : Char}
    (rest : Str) (hA : ∀ x ∈ A, p x = true) (hy : p y = false) :
    (A ++ y :: rest).takeWhile p = A := by
  induction A with
  | nil => simp [hy]
  | cons a as ih =>
    have hpa : p a = true := hA a (by simp)
    rw [List.cons_append, List.takeWhile_cons_of_pos hpa,
      ih (fun x hx => hA x (by simp [hx]))]

theorem dropWhile_append_cons_of_all {p : Char → Bool} {A : Str} {y : Char}
    (rest : Str) (hA : ∀ x ∈ A, p x = true) (hy : p y = false) :
    (A ++ y :: rest).dropWhile p = y :: rest := by
  induction A with
  | nil => simp [hy]
  | cons a as ih =>
    have hpa : p a = true := hA a (by simp)
    rw [List.cons_append, List.dropWhile_cons_of_pos hpa,
      ih (fun x hx => hA x (by simp [hx]))]

namespace Fmt

theorem hashCapture_isSome_iff {l : Str} (ht : trim l = l) :
    (hashCapture l).isSome = true ↔ hashDecl l := by
  constructor
  · intro h
    unfold hashCapture at h
    split at h
    · next hk =>
      obtain ⟨hk1, hk4⟩ := hk
      split at h
      · simp at h
      · next c rest hdrop =>
        split at h
        · next hwc =>
          have hrepl : l.takeWhile (fun x => decide (x = '#')) =
              List.replicate (l.takeWhile (fun x => decide (x = '#'))).length '#' := by
            apply List.eq_replicate_of_mem
            intro b hb
            simpa using List.mem_takeWhile_imp hb
          refine ⟨(l.takeWhile (fun x => decide (x = '#'))).length, c, rest, hk1, hk4, hwc, ?_⟩
          have htk : List.take (l.takeWhile (fun x => decide (x = '#'))).length l =
              l.takeWhile (fun x => decide (x = '#')) :=
            (List.prefix_iff_eq_take.mp (List.takeWhile_prefix _)).symm
          conv_lhs => rw [← List.take_append_drop
            (l.takeWhile (fun x => decide (x = '#'))).length l]
          rw [hdrop, htk]
          conv_lhs => rw [hrepl]
        · simp at h
    · simp at h
  · rintro ⟨k, w, rest, hk1, hk4, hw, rfl⟩
    have hw' : (fun x => decide (x = '#')) w = false := by
      simp only [decide_eq_false_iff_not]
      intro hcontra
      rw [hcontra] at hw
      exact absurd hw (by decide)
    have htake : (List.replicate k '#' ++ w :: rest).takeWhile (fun x => decide (x = '#')) =
        List.replicate k '#' :=
      takeWhile_append_cons_of_all _ (fun x hx => by
        simp only [List.mem_replicate] at hx
        simp [hx.2]) hw'
    have hdrop : (List.replicate k '#' ++ w :: rest).drop k = w :: rest :=
      List.drop_left' (by simp)
    have hr : rest.dropWhile isWsChar ≠ [] :=
      dropWhile_ws_ne_nil_of_trimmed ht hw
    unfold hashCapture
    rw [htake, List.length_replicate, if_pos ⟨hk1, hk4⟩, hdrop]
    simp [hw, hr]

theorem stripCloseStars_isSome_iff {m1 : Str} :
    (stripCloseStars m1).isSome = true ↔ ∃ c, c ≠ [] ∧ m1 = c ++ ['*', '*'] := by
  constructor
  · intro h
    unfold stripCloseStars at h
    split at h
    · next r0 r1 rc hrev =>
      split at h
      · next hg =>
        obtain ⟨h0, h1, hrc⟩ := hg
        subst h0
        subst h1
        have hm := congrArg List.reverse hrev
        simp only [List.reverse_reverse] at hm
        refine ⟨rc.reverse, by simpa using hrc, ?_⟩
        rw [hm]
        simp
      · simp at h
    · simp at h
  · rintro ⟨c, hc, rfl⟩
    unfold stripCloseStars
    rw [show (c ++ ['*', '*']).reverse = '*' :: '*' :: c.reverse by simp]
    simp [hc]

theorem boldHeadingCapture_isSome_iff {l : Str} :
    (boldHeadingCapture l).isSome = true ↔ boldDecl l := by
  constructor
  · intro h
    cases l with
    | nil => simp [boldHeadingCapture] at h
    | cons c0 l1 =>
      cases l1 with
      | nil => simp [boldHeadingCapture] at h
      | cons c1 m =>
        simp only [boldHeadingCapture] at h
        split at h
        · next hcc =>
          obtain ⟨hc0, hc1⟩ := hcc
          subst hc0
          subst hc1
          obtain ⟨c, hc, hm1⟩ := stripCloseStars_isSome_iff.mp h
          by_cases hcolon : m.getLast? = some ':'
          · rw [if_pos hcolon] at hm1
            obtain ⟨ys, rfl⟩ := List.getLast?_eq_some_iff.mp hcolon
            rw [List.dropLast_concat] at hm1
            subst hm1
            exact ⟨c, [':'], hc, Or.inr rfl, by simp⟩
          · rw [if_neg hcolon] at hm1
            subst hm1
            exact ⟨c, [], hc, Or.inl rfl, by simp⟩
        · simp at h
  · rintro ⟨c, t, hc, ht', rfl⟩
    simp only [boldHeadingCapture]
    rw [if_pos ⟨trivial, trivial⟩]
    cases ht' with
    | inl h0 =>
      subst h0
      have hlast : (c ++ '*' :: '*' :: ([] : Str)).getLast? = some '*' := by
        rw [show c ++ '*' :: '*' :: ([] : Str) = (c ++ ['*']) ++ ['*'] by simp]
        exact List.getLast?_concat _
      rw [if_neg (by rw [hlast]; simp)]
      exact stripCloseStars_isSome_iff.mpr ⟨c, hc, by simp⟩
    | inr h1 =>
      subst h1
      rw [show c ++ '*' :: '*' :: [':'] = (c ++ ['*', '*']) ++ [':'] by simp]
      rw [List.getLast?_concat, if_pos rfl, List.dropLast_concat]
      exact stripCloseStars_isSome_iff.mpr ⟨c, hc, rfl⟩

theorem capsBodyCh_ne_colon {c : Char} (h : capsBodyCh c = true) : c ≠ ':' := by
  intro hc
  subst hc
  exact absurd h (by decide)

theorem capsCapture_isSome_iff {l : Str} :
    (capsCapture l).isSome = true ↔ capsDecl l := by
  constructor
  · intro h
    unfold capsCapture at h
    by_cases hcolon : l.getLast? = some ':'
    · rw [if_pos hcolon] at h
      obtain ⟨ys, rfl⟩ := List.getLast?_eq_some_iff.mp hcolon
      rw [List.dropLast_concat] at h
      split at h
      · simp at h
      · next c0 body =>
        split at h
        · next hg =>
          simp only [Bool.and_eq_true, decide_eq_true_eq, List.all_eq_true] at hg
          obtain ⟨⟨hup, hlen⟩, hall⟩ := hg
          exact ⟨c0, body, [':'], hup, hlen, hall, Or.inr rfl, by simp⟩
        · simp at h
    · rw [if_neg hcolon] at h
      split at h
      · simp at h
      · next c0 body =>
        split at h
        · next hg =>
          simp only [Bool.and_eq_true, decide_eq_true_eq, List.all_eq_true] at hg
          obtain ⟨⟨hup, hlen⟩, hall⟩ := hg
          exact ⟨c0, body, [], hup, hlen, hall, Or.inl rfl, by simp⟩
        · simp at h
  · rintro ⟨c0, body, t, hup, hlen, hall, ht', rfl⟩
    unfold capsCapture
    cases ht' with
    | inl h0 =>
      subst h0
      have hnc : (c0 :: body ++ ([] : Str)).getLast? ≠ some ':' := by
        simp only [List.append_nil]
        intro hcl
        have hmem := List.mem_of_getLast?_eq_some hcl
        cases hmem with
        | head => exact absurd hup (by decide)
        | tail _ hm' => exact capsBodyCh_ne_colon (hall _ hm') rfl
      rw [if_neg hnc]
      simp only [List.append_nil]
      have hcond : (isUpperCh c0 && decide (3 ≤ body.length) && body.all capsBodyCh) = true := by
        simp only [Bool.and_eq_true, decide_eq_true_eq, List.all_eq_true]
        exact ⟨⟨hup, hlen⟩, hall⟩
      simp [hcond]
    | inr h1 =>
      subst h1
      rw [show c0 :: body ++ [':'] = (c0 :: body) ++ [':'] by simp]
      rw [List.getLast?_concat, if_pos rfl, List.dropLast_concat]
      have hcond : (isUpperCh c0 && decide (3 ≤ body.length) && body.all capsBodyCh) = true := by
        simp only [Bool.and_eq_true, decide_eq_true_eq, List.all_eq_true]
        exact ⟨⟨hup, hlen⟩, hall⟩
      simp [hcond]

theorem bulletCapture_isSome_iff {l : Str} (ht : trim l = l) :
    (bulletCapture l).isSome = true ↔ bulletDecl l := by
  constructor
  · intro h
    cases l with
    | nil => simp [bulletCapture] at h
    | cons g rest =>
      simp only [bulletCapture] at h
      split at h
      · next hg =>
        split at h
        · simp at h
        · next d rest2 =>
          split at h
          · next hd =>
            simp only [Bool.or_eq_true, decide_eq_true_eq] at hg
            exact ⟨g, d, rest2, by tauto, hd, rfl⟩
          · simp at h
      · simp at h
  · rintro ⟨g, w, rest, hg, hw, rfl⟩
    simp only [bulletCapture]
    rw [if_pos (by simp only [Bool.or_eq_true, decide_eq_true_eq]; tauto)]
    rw [if_pos hw]
    have hr : rest.dropWhile isWsChar ≠ [] :=
      dropWhile_ws_ne_nil_of_trimmed (A := [g]) ht hw
    simp [hr]

theorem numberedTest_iff {l : Str} (ht : trim l = l) :
    numberedTest l = true ↔ numberedDecl l := by
  constructor
  · intro h
    unfold numberedTest at h
    simp only [Bool.and_eq_true] at h
    obtain ⟨hne, hmatch⟩ := h
    split at hmatch
    · next p w rest hdrop =>
      simp only [Bool.and_eq_true, Bool.or_eq_true, decide_eq_true_eq] at hmatch
      obtain ⟨⟨hp, hw⟩, _⟩ := hmatch
      refine ⟨l.takeWhile isDigitCh, p, w, rest, by simpa using hne, ?_, hp, hw, ?_⟩
      · intro c hc
        exact List.mem_takeWhile_imp hc
      · conv_lhs => rw [← List.takeWhile_append_dropWhile (p := isDigitCh) (l := l)]
        rw [hdrop]
    · simp at hmatch
  · rintro ⟨ds, p, w, rest, hds, hdig, hp, hw, rfl⟩
    have hpd : isDigitCh p = false := by
      cases hp with
      | inl h0 => rw [h0]; decide
      | inr h1 => rw [h1]; decide
    have htake : (ds ++ p :: w :: rest).takeWhile isDigitCh = ds :=
      takeWhile_append_cons_of_all _ hdig hpd
    have hdrop : (ds ++ p :: w :: rest).dropWhile isDigitCh = p :: w :: rest :=
      dropWhile_append_cons_of_all _ hdig hpd
    have hr : rest.dropWhile isWsChar ≠ [] :=
      dropWhile_ws_ne_nil_of_trimmed (A := ds ++ [p]) (by simpa using ht) hw
    unfold numberedTest
    rw [htake, hdrop]
    simp [hds, hp, hw, hr]

theorem isDigitCh_not_upper {d : Char} (h : isDigitCh d = true) : isUpperCh d = false := by
  unfold isDigitCh at h
  unfold isUpperCh
  simp only [Bool.and_eq_true, decide_eq_true_eq] at h
  obtain ⟨h0, h9⟩ := h
  by_contra hcontra
  simp only [Bool.not_eq_false, Bool.and_eq_true, decide_eq_true_eq] at hcontra
  obtain ⟨hA, _⟩ := hcontra
  exact absurd (le_trans hA h9) (by decide)

theorem headingOf_isSome (l : Str) :
    (headingOf l).isSome =
      ((hashCapture l).isSome || (boldHeadingCapture l).isSome || (capsCapture l).isSome) := by
  unfold headingOf
  cases hashCapture l <;> cases boldHeadingCapture l <;> cases capsCapture l <;> simp

theorem hashCapture_none_of_head {g : Char} (t : Str) (hg : g ≠ '#') :
    hashCapture (g :: t) = none := by
  unfold hashCapture
  rw [List.takeWhile_cons_of_neg (by simpa using hg)]
  simp

theorem boldHeadingCapture_none_of_head {g : Char} (t : Str) (hg : g ≠ '*') :
    boldHeadingCapture (g :: t) = none := by
  cases t with
  | nil => rfl
  | cons c1 m =>
    simp only [boldHeadingCapture]
    rw [if_neg]
    intro hc
    exact hg hc.1

theorem boldHeadingCapture_none_of_second {c0 c1 : Char} (m : Str) (hg : c1 ≠ '*') :
    boldHeadingCapture (c0 :: c1 :: m) = none := by
  simp only [boldHeadingCapture]
  rw [if_neg]
  intro hc
  exact hg hc.2

theorem capsCapture_none_of_head {g : Char} (t : Str)
    (hg : isUpperCh g = false) (hg2 : g ≠ ':') :
    capsCapture (g :: t) = none := by
  unfold capsCapture
  by_cases hcol : (g :: t).getLast? = some ':'
  · rw [if_pos hcol]
    cases t with
    | nil =>
      simp only [List.getLast?_singleton, Option.some.injEq] at hcol
      exact absurd hcol hg2
    | cons a t2 =>
      rw [List.dropLast_cons₂]
      simp [hg]
  · rw [if_neg hcol]
    simp [hg]

theorem bulletCapture_none_of_head {g : Char} (t : Str)
    (hg : ¬(g = '•' ∨ g = '-' ∨ g = '*')) :
    bulletCapture (g :: t) = none := by
  simp only [bulletCapture]
  rw [if_neg (by simp only [Bool.or_eq_true, decide_eq_true_eq]; tauto)]

theorem numberedTest_false_of_head {g : Char} (t : Str) (hg : isDigitCh g = false) :
    numberedTest (g :: t) = false := by
  unfold numberedTest
  rw [List.takeWhile_cons_of_neg (by simp [hg])]
  simp

theorem headingOf_none_of_bulletDecl {l : Str} (h : bulletDecl l) :
    headingOf l = none := by
  obtain ⟨g, w, rest, hg, hw, rfl⟩ := h
  have hgh : g ≠ '#' := by rcases hg with rfl | rfl | rfl <;> decide
  have hgu : isUpperCh g = false := by rcases hg with rfl | rfl | rfl <;> decide
  have hgc : g ≠ ':' := by rcases hg with rfl | rfl | rfl <;> decide
  have hws : w ≠ '*' := by
    intro hwe
    rw [hwe] at hw
    exact absurd hw (by decide)
  unfold headingOf
  rw [hashCapture_none_of_head _ hgh, boldHeadingCapture_none_of_second _ hws,
    capsCapture_none_of_head _ hgu hgc]

theorem numberedDecl_head {l : Str} (h : numberedDecl l) :
    ∃ d t, l = d :: t ∧ isDigitCh d = true := by
  obtain ⟨ds, p, w, rest, hds, hdig, hp, hw, rfl⟩ := h
  cases ds with
  | nil => exact absurd rfl hds
  | cons d ds2 =>
    exact ⟨d, ds2 ++ p :: w :: rest, by simp, hdig d (by simp)⟩

theorem headingOf_none_of_numberedDecl {l : Str} (h : numberedDecl l) :
    headingOf l = none := by
  obtain ⟨d, t, rfl, hd⟩ := numberedDecl_head h
  have hdh : d ≠ '#' := by
    intro he
    rw [he] at hd
    exact absurd hd (by decide)
  have hdstar : d ≠ '*' := by
    intro he
    rw [he] at hd
    exact absurd hd (by decide)
  have hdc : d ≠ ':' := by
    intro he
    rw [he] at hd
    exact absurd hd (by decide)
  unfold headingOf
  rw [hashCapture_none_of_head _ hdh, boldHeadingCapture_none_of_head _ hdstar,
    capsCapture_none_of_head _ (isDigitCh_not_upper hd) hdc]

theorem bulletCapture_none_of_numberedDecl {l : Str} (h : numberedDecl l) :
    bulletCapture l = none := by
  obtain ⟨d, t, rfl, hd⟩ := numberedDecl_head h
  apply bulletCapture_none_of_head
  rintro (rfl | rfl | rfl) <;> exact absurd hd (by decide)

theorem bulletCapture_cons_eq {g w : Char} {rest : Str}
    (hg : g = '•' ∨ g = '-' ∨ g = '*') (hw : isWsChar w = true)
    (hr1 : rest.dropWhile isWsChar = rest) (hr2 : rest ≠ []) :
    bulletCapture (g :: w :: rest) = some rest := by
  simp only [bulletCapture]
  rw [if_pos (by simp only [Bool.or_eq_true, decide_eq_true_eq]; tauto)]
  rw [if_pos hw, hr1, if_neg hr2]

theorem renderedText_append (a b : List InlinePart) :
    renderedText (a ++ b) = renderedText a ++ renderedText b := by
  induction a with
  | nil => rfl
  | cons p ps ih => cases p <;> simp [renderedText, ih]

theorem rendered_of_no_bold {s : Str} (h : findBold s = none) :
    renderedText (inlineRender s) = s.filter (· ≠ '*') := by
  have h2 := inlineParts_eq_of_no_bold h
  unfold inlineFallback at h2
  by_cases hc : s.filter (· ≠ '*') = []
  · rw [if_pos hc] at h2
    unfold inlineRender
    rw [h2]
    simp [renderedText, hc]
  · rw [if_neg hc] at h2
    unfold inlineRender
    rw [h2]
    simp [renderedText]

end Fmt

namespace Slide

theorem scanClose2_len {acc l cnt a} (h : scanClose2 acc l = some (cnt, a)) :
    a.length + 2 ≤ l.length := by
  induction l generalizing acc with
  | nil => simp [scanClose2] at h
  | cons c rest ih =>
    rw [scanClose2] at h
    split at h
    · next hc =>
      obtain ⟨hc1, hc2⟩ := hc
      simp only [Option.some.injEq, Prod.mk.injEq] at h
      obtain ⟨_, ha⟩ := h
      cases rest with
      | nil => simp at hc2
      | cons r0 rest2 =>
        simp only [List.tail_cons] at ha
        subst ha
        simp
    · have := ih h
      simp only [List.length_cons]
      omega

theorem scanClose1_len {acc l cnt a} (h : scanClose1 acc l = some (cnt, a)) :
    a.length + 1 ≤ l.length := by
  induction l generalizing acc with
  | nil => simp [scanClose1] at h
  | cons c rest ih =>
    rw [scanClose1] at h
    split at h
    · simp only [Option.some.injEq, Prod.mk.injEq] at h
      obtain ⟨_, ha⟩ := h
      subst ha
      simp
    · have := ih h
      simp only [List.length_cons]
      omega

theorem pushToLast_length (f : SlideSec → SlideSec) (secs : List SlideSec) :
    (pushToLast f secs).length = secs.length := by
  induction secs with
  | nil => rfl
  | cons s rest ih =>
    cases rest with
    | nil => rfl
    | cons s2 rest2 => simpa [pushToLast] using ih

theorem findMarker_isSome_iff (l : Str) :
    (findMarker l).isSome = lineMentionsSlide l := by
  rw [Bool.eq_iff_iff]
  unfold findMarker lineMentionsSlide
  rw [List.find?_isSome]
  simp only [Bool.or_eq_true]
  constructor
  · rintro ⟨d, hd, hp⟩
    simp only [sectionDefs, List.mem_cons, List.not_mem_nil, or_false] at hd
    rcases hd with rfl | rfl | rfl | rfl <;> (dsimp only at hp; tauto)
  · intro hor
    rcases hor with ((h | h) | h) | h
    · exact ⟨⟨"understanding", "understanding your results".toList, "📊"⟩,
        by simp [sectionDefs], h⟩
    · exact ⟨⟨"action", "your personalized action plan".toList, "🎯"⟩,
        by simp [sectionDefs], h⟩
    · exact ⟨⟨"monitoring", "monitoring your progress".toList, "📅"⟩,
        by simp [sectionDefs], h⟩
    · exact ⟨⟨"doctor", "when to see your doctor".toList, "⚕️"⟩,
        by simp [sectionDefs], h⟩

theorem stepSlide_length (secs : List SlideSec) (l : Str) :
    (stepSlide secs l).length =
      secs.length + (if lineMentionsSlide l then 1 else 0) := by
  cases hm : findMarker l with
  | some d =>
    have hl : lineMentionsSlide l = true := by
      rw [← findMarker_isSome_iff, hm]
      rfl
    simp [stepSlide, hm, hl]
  | none =>
    have hl : lineMentionsSlide l = false := by
      rw [← findMarker_isSome_iff, hm]
      rfl
    cases secs with
    | nil => simp [stepSlide, hm, hl]
    | cons s rest =>
      by_cases hb : l.head? = some '•' ∨ l.head? = some '-'
      · simp [stepSlide, hm, hl, hb, pushToLast_length]
      · simp [stepSlide, hm, hl, hb, pushToLast_length]

theorem foldl_stepSlide_length (lines : List Str) (secs : List SlideSec) :
    (lines.foldl stepSlide secs).length =
      secs.length + lines.countP lineMentionsSlide := by
  induction lines generalizing secs with
  | nil => simp
  | cons l ls ih =>
    rw [List.foldl_cons, ih, stepSlide_length, List.countP_cons]
    cases h : lineMentionsSlide l with
    | false => simp [h]
    | true => simp [h]; omega

end Slide

/-- Claim C1 counterexample: this message contains each of the four
fixed marker phrases, case-insensitively, as a substring of some line,
and the template path is taken, yet the Reply Formatter produces three
section blocks, not four, because two markers share one line. -/
theorem c1_counterexample :
    ((Slide.rawLines c1Input).any (fun l =>
        containsSeq ("understanding your results".toList) (l.map asciiLower)) = true)
    ∧ ((Slide.rawLines c1Input).any (fun l =>
        containsSeq ("your personalized action plan".toList) (l.map asciiLower)) = true)
    ∧ ((Slide.rawLines c1Input).any (fun l =>
        containsSeq ("monitoring your progress".toList) (l.map asciiLower)) = true)
    ∧ ((Slide.rawLines c1Input).any (fun l =>
        containsSeq ("when to see your doctor".toList) (l.map asciiLower)) = true)
    ∧ Slide.hasSlideSections c1Input = true
    ∧ (Slide.slideSections c1Input).length = 3 := by
  refine ⟨?_, ?_, ?_, ?_, ?_, ?_⟩ <;> decide

/-- Claim C1 (amended): the Reply Formatter produces exactly one section
block per normalized nonempty line containing at least one marker
phrase; in particular it produces four blocks when the four markers
occupy four distinct lines, and it falls to the generic path (no
template rendering) exactly when no line contains a marker. -/
theorem c1_template_sections_amended (content : Str) :
    (Slide.slideSections content).length =
      (Slide.rawLines content).countP Slide.lineMentionsSlide
    ∧ (Slide.hasSlideSections content = false ↔
        (Slide.rawLines content).countP Slide.lineMentionsSlide = 0) := by
  constructor
  · unfold Slide.slideSections
    rw [Slide.foldl_stepSlide_length]
    simp
  · unfold Slide.hasSlideSections
    rw [List.any_eq_false, List.countP_eq_zero]

/-- Claim C2: on the generic formatting path, every nonempty trimmed
input line appears in exactly one output item, with its classification
(heading, bullet, numbered or plain), in input order: the flattened
rendered output is the classification map over the nonempty trimmed
lines, so no line is dropped and none is duplicated. -/
theorem c2_generic_path_lossless (content : Str) :
    Fmt.flattenEls (Fmt.renderMessageContent content) =
      (((splitLines content).map trim).filter (fun l => !l.isEmpty)).map Fmt.lineItem := by
  unfold Fmt.renderMessageContent
  rw [Fmt.flatten_flush, Fmt.flattenSt_foldl]
  simp [Fmt.flattenSt, Fmt.flattenEls]

/-- Claim C3 counterexample: the non-heading line
"Take *this* and **that** daily" renders on the plain path, and its
rendered text contains a literal asterisk, because text before a
double-asterisk segment is emitted verbatim rather than stripped. -/
theorem c3_counterexample :
    Fmt.lineItem ("Take *this* and **that** daily".toList) =
      Fmt.Item.plainI (Fmt.inlineRender ("Take *this* and **that** daily".toList))
    ∧ '*' ∈ Fmt.renderedText
        (Fmt.inlineRender ("Take *this* and **that** daily".toList)) := by
  refine ⟨?_, ?_⟩ <;> decide

/-- Claim C3 (amended): within non-heading lines, the earliest
double-asterisk-wrapped segment is rendered as an emphasized span with
its delimiters removed, the text before it is rendered verbatim (so
stray asterisks there appear literally), and the remainder is processed
recursively; only a line with no double-asterisk-wrapped segment has all
its asterisks stripped from the rendered text. -/
theorem c3_inline_asterisks_amended (s : Str) :
    ((¬ ∃ x y z, y ≠ [] ∧ s = x ++ '*' :: '*' :: (y ++ '*' :: '*' :: z)) →
      '*' ∉ Fmt.renderedText (Fmt.inlineRender s))
    ∧ (∀ b c a, Fmt.findBold s = some (b, c, a) →
        c ≠ [] ∧ s = b ++ '*' :: '*' :: (c ++ '*' :: '*' :: a) ∧
        Fmt.renderedText (Fmt.inlineRender s) =
          b ++ c ++ Fmt.renderedText (Fmt.inlineParts a)) := by
  constructor
  · intro hno
    cases hf : Fmt.findBold s with
    | some triple =>
      obtain ⟨b, c, a⟩ := triple
      obtain ⟨hs, hc⟩ := Fmt.findBold_sound hf
      exact absurd ⟨b, c, a, hc, hs⟩ hno
    | none =>
      rw [Fmt.rendered_of_no_bold hf]
      intro hmem
      rw [List.mem_filter] at hmem
      simp at hmem
  · intro b c a hf
    obtain ⟨hs, hc⟩ := Fmt.findBold_sound hf
    refine ⟨hc, hs, ?_⟩
    have hparts := Fmt.inlineParts_eq_of_findBold hf
    have hne : Fmt.inlineParts s ≠ [] := by
      rw [hparts]
      by_cases hb : b = [] <;> simp [hb]
    have hrender : Fmt.inlineRender s = Fmt.inlineParts s := by
      unfold Fmt.inlineRender
      cases hps : Fmt.inlineParts s with
      | nil => exact absurd hps hne
      | cons p ps => rfl
    rw [hrender, hparts, Fmt.renderedText_append]
    by_cases hb : b = []
    · subst hb
      simp [Fmt.renderedText]
    · rw [if_neg hb]
      simp [Fmt.renderedText]

/-- Claim C3 witness: a line without any double-asterisk segment renders
with no asterisk, and the bold segment of "Take **Omega-3** daily" is
emphasized without its delimiters. -/
theorem c3_inline_asterisks_amended_witness :
    ('*' ∉ Fmt.renderedText (Fmt.inlineRender ("take these daily".toList)))
    ∧ Fmt.renderedText (Fmt.inlineRender ("Take **Omega-3** daily".toList)) =
        "Take ".toList ++ "Omega-3".toList ++
          Fmt.renderedText (Fmt.inlineParts (" daily".toList)) := by
  constructor
  · refine (c3_inline_asterisks_amended _).1 ?_
    rintro ⟨x, y, z, hy, he⟩
    have hstar : '*' ∈ ("take these daily".toList) := by
      rw [he]
      simp
    exact absurd hstar (by decide)
  · exact ((c3_inline_asterisks_amended _).2 ("Take ".toList) ("Omega-3".toList)
      (" daily".toList) (by decide)).2.2

/-- Claim C4 counterexample: the line "A & B" is classified as a heading
by the code, although it is not a hash heading, not a bold-wrapped
heading, and contains only two letters, fewer than the four letters the
claim requires of an all-caps heading. -/
theorem c4_counterexample :
    Fmt.itemKind (Fmt.lineItem ("A & B".toList)) = Fmt.LineKind.headingK
    ∧ Fmt.hashCapture ("A & B".toList) = none
    ∧ Fmt.boldHeadingCapture ("A & B".toList) = none
    ∧ ("A & B".toList).countP isUpperCh < 4 := by
  refine ⟨?_, ?_, ?_, ?_⟩ <;> decide

/-- Claim C4 (amended): a nonempty trimmed line is classified as a
heading iff it starts with one to four hash characters followed by
whitespace, or is a nonempty body fully wrapped in double asterisks with
an optional trailing colon, or consists of an uppercase letter followed
by at least three characters drawn from uppercase letters, whitespace
and ampersand (at least four characters, not necessarily four letters)
with an optional trailing colon; it is a bullet iff it starts with a
bullet glyph followed by whitespace; it is numbered iff it starts with
digits, then a dot or closing parenthesis, then whitespace; and it is
plain iff none of these hold. -/
theorem c4_line_classification_amended (l : Str) (ht : trim l = l) (_hne : l ≠ []) :
    (Fmt.itemKind (Fmt.lineItem l) = Fmt.LineKind.headingK ↔
        Fmt.hashDecl l ∨ Fmt.boldDecl l ∨ Fmt.capsDecl l)
    ∧ (Fmt.itemKind (Fmt.lineItem l) = Fmt.LineKind.bulletK ↔ Fmt.bulletDecl l)
    ∧ (Fmt.itemKind (Fmt.lineItem l) = Fmt.LineKind.numberedK ↔ Fmt.numberedDecl l)
    ∧ (Fmt.itemKind (Fmt.lineItem l) = Fmt.LineKind.plainK ↔
        ¬(Fmt.hashDecl l ∨ Fmt.boldDecl l ∨ Fmt.capsDecl l) ∧
          ¬Fmt.bulletDecl l ∧ ¬Fmt.numberedDecl l) := by
  have hhead : (Fmt.headingOf l).isSome = true ↔
      Fmt.hashDecl l ∨ Fmt.boldDecl l ∨ Fmt.capsDecl l := by
    rw [Fmt.headingOf_isSome]
    simp only [Bool.or_eq_true]
    rw [Fmt.hashCapture_isSome_iff ht, Fmt.boldHeadingCapture_isSome_iff,
      Fmt.capsCapture_isSome_iff, or_assoc]
  have hbull := Fmt.bulletCapture_isSome_iff (l := l) ht
  have hnum := Fmt.numberedTest_iff (l := l) ht
  cases hh : Fmt.headingOf l with
  | some t0 =>
    have hdecl : Fmt.hashDecl l ∨ Fmt.boldDecl l ∨ Fmt.capsDecl l :=
      hhead.mp (by rw [hh]; rfl)
    have hnb : ¬Fmt.bulletDecl l := fun hb => by
      rw [Fmt.headingOf_none_of_bulletDecl hb] at hh
      exact Option.noConfusion hh
    have hnn : ¬Fmt.numberedDecl l := fun hn => by
      rw [Fmt.headingOf_none_of_numberedDecl hn] at hh
      exact Option.noConfusion hh
    have hitem : Fmt.itemKind (Fmt.lineItem l) = Fmt.LineKind.headingK := by
      unfold Fmt.lineItem
      rw [hh]
      rfl
    rw [hitem]
    exact ⟨⟨fun _ => hdecl, fun _ => rfl⟩,
      ⟨fun hc => absurd hc (by decide), fun hb => (hnb hb).elim⟩,
      ⟨fun hc => absurd hc (by decide), fun hn => (hnn hn).elim⟩,
      ⟨fun hc => absurd hc (by decide), fun hp => (hp.1 hdecl).elim⟩⟩
  | none =>
    have hndecl : ¬(Fmt.hashDecl l ∨ Fmt.boldDecl l ∨ Fmt.capsDecl l) := fun hd => by
      have hx := hhead.mpr hd
      rw [hh] at hx
      simp at hx
    cases hbc : Fmt.bulletCapture l with
    | some c0 =>
      have hbd : Fmt.bulletDecl l := hbull.mp (by rw [hbc]; rfl)
      have hnn : ¬Fmt.numberedDecl l := fun hn => by
        rw [Fmt.bulletCapture_none_of_numberedDecl hn] at hbc
        exact Option.noConfusion hbc
      have hitem : Fmt.itemKind (Fmt.lineItem l) = Fmt.LineKind.bulletK := by
        unfold Fmt.lineItem
        rw [hh, hbc]
        rfl
      rw [hitem]
      exact ⟨⟨fun hc => absurd hc (by decide), fun hd => (hndecl hd).elim⟩,
        ⟨fun _ => hbd, fun _ => rfl⟩,
        ⟨fun hc => absurd hc (by decide), fun hn => (hnn hn).elim⟩,
        ⟨fun hc => absurd hc (by decide), fun hp => (hp.2.1 hbd).elim⟩⟩
    | none =>
      have hnb : ¬Fmt.bulletDecl l := fun hb => by
        have hx := hbull.mpr hb
        rw [hbc] at hx
        simp at hx
      cases hnt : Fmt.numberedTest l with
      | true =>
        have hnd : Fmt.numberedDecl l := hnum.mp hnt
        have hitem : Fmt.itemKind (Fmt.lineItem l) = Fmt.LineKind.numberedK := by
          unfold Fmt.lineItem
          rw [hh, hbc, if_pos hnt]
          rfl
        rw [hitem]
        exact ⟨⟨fun hc => absurd hc (by decide), fun hd => (hndecl hd).elim⟩,
          ⟨fun hc => absurd hc (by decide), fun hb => (hnb hb).elim⟩,
          ⟨fun _ => hnd, fun _ => rfl⟩,
          ⟨fun hc => absurd hc (by decide), fun hp => (hp.2.2 hnd).elim⟩⟩
      | false =>
        have hnnd : ¬Fmt.numberedDecl l := fun hn => by
          have hx := hnum.mpr hn
          rw [hnt] at hx
          exact Bool.noConfusion hx
        have hitem : Fmt.itemKind (Fmt.lineItem l) = Fmt.LineKind.plainK := by
          unfold Fmt.lineItem
          rw [hh, hbc, if_neg (by simp [hnt])]
          rfl
        rw [hitem]
        exact ⟨⟨fun hc => absurd hc (by decide), fun hd => (hndecl hd).elim⟩,
          ⟨fun hc => absurd hc (by decide), fun hb => (hnb hb).elim⟩,
          ⟨fun hc => absurd hc (by decide), fun hn => (hnnd hn).elim⟩,
          ⟨fun _ => ⟨hndecl, hnb, hnnd⟩, fun _ => rfl⟩⟩

/-- Claim C4 witness: "### Next Steps" is classified as a heading and
"- walk daily" as a bullet, matching the amended classification. -/
theorem c4_line_classification_amended_witness :
    Fmt.itemKind (Fmt.lineItem ("### Next Steps".toList)) = Fmt.LineKind.headingK
    ∧ Fmt.itemKind (Fmt.lineItem ("- walk daily".toList)) = Fmt.LineKind.bulletK := by
  constructor
  · exact (c4_line_classification_amended ("### Next Steps".toList)
      (by decide) (by decide)).1.mpr
      (Or.inl ⟨3, ' ', "Next Steps".toList, by decide, by decide, by decide, by decide⟩)
  · exact (c4_line_classification_amended ("- walk daily".toList)
      (by decide) (by decide)).2.1.mpr
      ⟨'-', ' ', "walk daily".toList, Or.inr (Or.inl rfl), by decide, rfl⟩

/-- Claim C5: when the chat request fails, the optimistically appended
user message remains the only addition to the transcript, no assistant
message is appended, the mapped error notification is surfaced, and the
loading flag is back to false in every outcome. -/
theorem c5_send_failure_semantics (s : Ctrl.AppState) (text userTime replyTime : Str)
    (k : Ctrl.ErrKind) (hne : trim text ≠ []) (hnl : s.loading = false) :
    ((Ctrl.sendMessage s text userTime replyTime (Ctrl.ChatOutcome.failure k)).1.messages =
        s.messages ++ [Ctrl.Msg.mk Ctrl.Role.user text userTime])
    ∧ (Ctrl.sendMessage s text userTime replyTime (Ctrl.ChatOutcome.failure k)).1.error =
        some (Ctrl.getErrorMessage k)
    ∧ (Ctrl.sendMessage s text userTime replyTime (Ctrl.ChatOutcome.failure k)).1.loading = false
    ∧ ∀ out, (Ctrl.sendMessage s text userTime replyTime out).1.loading = false := by
  refine ⟨?_, ?_, ?_, ?_⟩
  · simp [Ctrl.sendMessage, hne, hnl]
  · simp [Ctrl.sendMessage, hne, hnl]
  · simp [Ctrl.sendMessage, hne, hnl]
  · intro out
    cases out <;> simp [Ctrl.sendMessage, hne, hnl]

/-- Claim C5 witness: the failure semantics at a concrete state. -/
theorem c5_send_failure_semantics_witness :
    ((Ctrl.sendMessage sampleState ("why?".toList) ("10:01".toList) ("10:02".toList)
        (Ctrl.ChatOutcome.failure Ctrl.ErrKind.noResponse)).1.messages =
      sampleState.messages ++
        [Ctrl.Msg.mk Ctrl.Role.user ("why?".toList) ("10:01".toList)])
    ∧ (Ctrl.sendMessage sampleState ("why?".toList) ("10:01".toList) ("10:02".toList)
        (Ctrl.ChatOutcome.failure Ctrl.ErrKind.noResponse)).1.error =
        some (Ctrl.getErrorMessage Ctrl.ErrKind.noResponse)
    ∧ (Ctrl.sendMessage sampleState ("why?".toList) ("10:01".toList) ("10:02".toList)
        (Ctrl.ChatOutcome.failure Ctrl.ErrKind.noResponse)).1.loading = false
    ∧ ∀ out, (Ctrl.sendMessage sampleState ("why?".toList) ("10:01".toList)
        ("10:02".toList) out).1.loading = false :=
  c5_send_failure_semantics sampleState ("why?".toList) ("10:01".toList)
    ("10:02".toList) Ctrl.ErrKind.noResponse (by decide) rfl

/-- Claim C6: when the upload fails, either with an application-level
error in the response or with a transport failure, the failure message
is surfaced and the rest of the state, screen, filename, report context
and transcript included, keeps its previous value; the uploading flag is
cleared. -/
theorem c6_upload_failure_preserves_state (s : Ctrl.AppState) (out : Ctrl.UploadOutcome)
    (msg : Str) (h : Ctrl.uploadFailureMsg out = some msg) :
    Ctrl.handleUpload s out = { s with error := some msg, uploading := false } := by
  cases out with
  | response e fn content =>
    unfold Ctrl.uploadFailureMsg at h
    dsimp only at h
    by_cases he : e = []
    · rw [if_pos he] at h
      exact Option.noConfusion h
    · rw [if_neg he] at h
      obtain rfl := Option.some.inj h
      unfold Ctrl.handleUpload
      dsimp only
      rw [if_pos he]
  | transport k =>
    unfold Ctrl.uploadFailureMsg at h
    dsimp only at h
    obtain rfl := Option.some.inj h
    rfl

/-- Claim C6 witness: a transport failure at a concrete state. -/
theorem c6_upload_failure_preserves_state_witness :
    Ctrl.handleUpload sampleState (Ctrl.UploadOutcome.transport Ctrl.ErrKind.other) =
      { sampleState with
          error := some (Ctrl.getErrorMessage Ctrl.ErrKind.other)
          uploading := false } :=
  c6_upload_failure_preserves_state sampleState
    (Ctrl.UploadOutcome.transport Ctrl.ErrKind.other)
    (Ctrl.getErrorMessage Ctrl.ErrKind.other) rfl

/-- Claim C7: a send with nonempty trimmed text and no send in flight
issues exactly one request carrying the message text, the pre-append
transcript projected to role-and-content pairs in order, and the report
context text, or none when the context is empty. -/
theorem c7_chat_request_payload (s : Ctrl.AppState) (text userTime replyTime : Str)
    (out : Ctrl.ChatOutcome) (hne : trim text ≠ []) (hnl : s.loading = false) :
    (Ctrl.sendMessage s text userTime replyTime out).2 =
      some { message := text
             conversation_history :=
               s.messages.map (fun m => Ctrl.HistEntry.mk m.role m.content)
             file_context :=
               if s.fileContext = [] then none else some s.fileContext } := by
  cases out <;> simp [Ctrl.sendMessage, hne, hnl]

/-- Claim C7 witness: the issued payload at a concrete state. -/
theorem c7_chat_request_payload_witness :
    (Ctrl.sendMessage sampleState ("why?".toList) ("10:01".toList) ("10:02".toList)
        (Ctrl.ChatOutcome.success ("ok".toList))).2 =
      some { message := "why?".toList
             conversation_history :=
               sampleState.messages.map (fun m => Ctrl.HistEntry.mk m.role m.content)
             file_context :=
               if sampleState.fileContext = [] then none
               else some sampleState.fileContext } :=
  c7_chat_request_payload sampleState ("why?".toList) ("10:01".toList)
    ("10:02".toList) (Ctrl.ChatOutcome.success ("ok".toList)) (by decide) rfl

/-- Claim C8: resetting the chat clears the transcript, the input box,
the filename, the report context and any pending error, and returns to
the upload screen, from any prior state. -/
theorem c8_reset_clears_state (s : Ctrl.AppState) :
    (Ctrl.handleNewChat s).messages = []
    ∧ (Ctrl.handleNewChat s).message = []
    ∧ (Ctrl.handleNewChat s).fileName = none
    ∧ (Ctrl.handleNewChat s).fileContext = []
    ∧ (Ctrl.handleNewChat s).error = none
    ∧ (Ctrl.handleNewChat s).screen = Ctrl.Screen.upload := by
  simp [Ctrl.handleNewChat]

/-- Claim C9: a send with empty or whitespace-only text, or while a send
is in flight, is a no-op: the state is unchanged and no request is
issued. -/
theorem c9_send_noop (s : Ctrl.AppState) (text userTime replyTime : Str)
    (out : Ctrl.ChatOutcome) (h : trim text = [] ∨ s.loading = true) :
    Ctrl.sendMessage s text userTime replyTime out = (s, none) := by
  unfold Ctrl.sendMessage
  rw [if_pos h]

/-- Claim C9 witness: whitespace-only text is a no-op at a concrete
state. -/
theorem c9_send_noop_witness :
    Ctrl.sendMessage sampleState ("   ".toList) ("10:01".toList) ("10:02".toList)
      (Ctrl.ChatOutcome.success ("ok".toList)) = (sampleState, none) :=
  c9_send_noop sampleState ("   ".toList) ("10:01".toList) ("10:02".toList)
    (Ctrl.ChatOutcome.success ("ok".toList)) (Or.inl (by decide))

/-- Claim C10: in the generic path, a bullet line is displayed without
its leading glyph and the whitespace after it, while a numbered line is
displayed with its numeric prefix kept: the bullet item renders only the
text after the glyph, and the numbered item renders the whole line. -/
theorem c10_bullet_stripped_numbered_kept :
    (∀ (g w : Char) (rest : Str), (g = '•' ∨ g = '-' ∨ g = '*') → isWsChar w = true →
      rest.dropWhile isWsChar = rest → rest ≠ [] →
      Fmt.lineItem (g :: w :: rest) = Fmt.Item.bulletI (Fmt.inlineRender rest))
    ∧ (∀ l : Str, Fmt.numberedDecl l → trim l = l →
      Fmt.lineItem l = Fmt.Item.numberedI (Fmt.inlineRender l)) := by
  constructor
  · intro g w rest hg hw hr1 hr2
    have hbd : Fmt.bulletDecl (g :: w :: rest) := ⟨g, w, rest, hg, hw, rfl⟩
    unfold Fmt.lineItem
    rw [Fmt.headingOf_none_of_bulletDecl hbd, Fmt.bulletCapture_cons_eq hg hw hr1 hr2]
  · intro l hnd htl
    unfold Fmt.lineItem
    rw [Fmt.headingOf_none_of_numberedDecl hnd,
      Fmt.bulletCapture_none_of_numberedDecl hnd,
      if_pos ((Fmt.numberedTest_iff htl).mpr hnd)]

/-- Claim C10 witness: the bullet line "- walk daily" renders only
"walk daily", and the numbered line "1. walk" renders with its prefix. -/
theorem c10_bullet_stripped_numbered_kept_witness :
    Fmt.lineItem ("- walk daily".toList) =
      Fmt.Item.bulletI (Fmt.inlineRender ("walk daily".toList))
    ∧ Fmt.lineItem ("1. walk".toList) =
      Fmt.Item.numberedI (Fmt.inlineRender ("1. walk".toList)) := by
  constructor
  · exact c10_bullet_stripped_numbered_kept.1 '-' ' ' ("walk daily".toList)
      (Or.inr (Or.inl rfl)) (by decide) (by decide) (by decide)
  · exact c10_bullet_stripped_numbered_kept.2 ("1. walk".toList)
      ⟨"1".toList, '.', ' ', "walk".toList, by decide, by decide, Or.inl rfl,
        by decide, by decide⟩ (by decide)

end Recognaize
